import Mathlib

/-!
Shallow embedding of the VeriCold log plotter's time-range synchronization and
viewport auto-ranging core, and proofs about it.

Sources embedded:
- `src/gui/_time_span_edit.py` — the duration text codec (`_value_to_text`,
  `TimeSpanEdit.validate`, `TimeSpanEdit.time_delta`, `TimeSpanEdit.fixup`,
  `TimeSpanEdit._on_edit_finished`, `TimeSpanEdit.stepBy`).
- `src/gui/_plot.py` — the time-range controller handlers
  (`on_start_time_changed`, `on_end_time_changed`, `on_time_span_changed`).
- `src/vericold_plotter/gui/_plot.py` — `Plot.auto_range_y`, `Plot.plot`'s
  X-column pairing scan, `Plot.replot`.

Modelling conventions:
- A Python `timedelta` is an integer number of microseconds (`ℤ`); `timedelta`
  normalization uses floor division, which for positive divisors agrees with
  Lean's `Int` `/` and `%`.
- `QDateTime` values are integer milliseconds since the epoch (`ℤ`).
- Python float `round` and C `printf`-style rounding are modelled exactly as
  round-half-to-even on the underlying scaled integers.
- `float64` sample values are rationals; a NaN sample is `none : Option ℚ`,
  and NaN comparisons are `false`, as in numpy.
- The locale is the default one: the decimal point is `'.'`, and
  `QLocale.toDouble` / `toUShort` / `toULongLong` parse plain digit strings
  (with one optional `'.'` for `toDouble`), failing on anything else or on
  values beyond their numeric range.
-/

namespace VeriCold

/-! ### Python string and number helpers -/

/-- Python `str.split(sep)` for a one-character separator: `''.split(':') = ['']`,
`'a::b'.split(':') = ['a', '', 'b']`. -/
def splitCL (sep : Char) : List Char → List (List Char)
  | [] => [[]]
  | c :: rest =>
    match splitCL sep rest with
    | [] => [[c]]
    | h :: t => if c = sep then [] :: h :: t else (c :: h) :: t

/-- The ten decimal digit characters, in order. -/
def decDigits : List Char := ['0', '1', '2', '3', '4', '5', '6', '7', '8', '9']

/-- Value of a decimal digit character, `none` for a non-digit. -/
def dval (c : Char) : Option ℕ := decDigits.indexOf? c

def isDig (c : Char) : Bool := (dval c).isSome

/-- Digit character for a value below ten (only ever applied to `n % 10` or to
values known to be below ten). -/
def digitChar (n : ℕ) : Char := decDigits.getD n '9'

/-- Decimal digits, most significant first, by structural recursion on a fuel
argument (any fuel at least the value itself is enough). -/
def ntdAux : ℕ → ℕ → List Char
  | 0, _ => []
  | fuel + 1, n =>
    if n < 10 then [digitChar n] else ntdAux fuel (n / 10) ++ [digitChar (n % 10)]

/-- Decimal digits of a natural number, most significant first (Python
`str(n)` / `'{}'.format(n)` for a nonnegative integer). -/
def ntd (n : ℕ) : List Char := ntdAux (n + 1) n

/-- Python `'{:02d}'.format(n)`: zero-pad to two digits. -/
def pad2 (n : ℕ) : List Char := if n < 10 then '0' :: ntd n else ntd n

/-- Zero-pad to three digits (the fractional part of `'{:06.3f}'`). -/
def pad3 (n : ℕ) : List Char :=
  if n < 10 then '0' :: '0' :: ntd n
  else if n < 100 then '0' :: ntd n
  else ntd n

/-- Numeric value of a digit list (leading zeros allowed). -/
def digitsVal (l : List Char) : ℕ := l.foldl (fun a c => 10 * a + (dval c).getD 0) 0

/-- Parse a nonempty all-digit list as a natural number; `none` otherwise. -/
def parseNatCL (l : List Char) : Option ℕ :=
  if !l.isEmpty && l.all isDig then some (digitsVal l) else none

/-- `QLocale.toUShort`: unsigned 16-bit integer parse. -/
def toUShortCL (l : List Char) : Option ℕ :=
  match parseNatCL l with
  | some n => if n ≤ 65535 then some n else none
  | none => none

/-- `QLocale.toULongLong`: unsigned 64-bit integer parse. -/
def toULongLongCL (l : List Char) : Option ℕ :=
  match parseNatCL l with
  | some n => if n ≤ 18446744073709551615 then some n else none
  | none => none

/-- `QLocale.toDouble` on the digit-and-dot strings reachable here, returned
exactly: `some (n, k)` stands for the value `n / 10 ^ k ≥ 0`. -/
def toDoubleCL (l : List Char) : Option (ℕ × ℕ) :=
  match splitCL '.' l with
  | [i] => if !i.isEmpty && i.all isDig then some (digitsVal i, 0) else none
  | [i, f] =>
    if (!i.isEmpty || !f.isEmpty) && i.all isDig && f.all isDig then
      some (digitsVal i * 10 ^ f.length + digitsVal f, f.length)
    else none
  | _ => none

/-- Round-half-to-even of `a / b` for a positive divisor `b` (Python `round`,
and the rounding used by `printf`-style float formatting and by `timedelta`
microsecond normalization). -/
def rndHEdiv (a b : ℤ) : ℤ :=
  if 2 * (a % b) < b then a / b
  else if b < 2 * (a % b) then a / b + 1
  else if (a / b) % 2 = 0 then a / b else a / b + 1

/-- Python `abs` on integers. -/
def pyAbs (a : ℤ) : ℤ := if a < 0 then -a else a

/-! ### Duration codec: `src/gui/_time_span_edit.py` -/

/-- `delta.days` of a `timedelta` of `t` microseconds. -/
def daysF (t : ℤ) : ℤ := t / 86400000000

/-- `delta.seconds` of a `timedelta` of `t` microseconds. -/
def secsF (t : ℤ) : ℤ := (t / 1000000) % 86400

/-- `delta.microseconds` of a `timedelta` of `t` microseconds. -/
def microF (t : ℤ) : ℤ := t % 1000000

/-- `hours` as computed by `_value_to_text`: `delta.seconds // 3600`. -/
def hoursF (t : ℤ) : ℤ := secsF t / 3600

/-- `minutes` as computed by `_value_to_text`: `(delta.seconds // 60) % 60`. -/
def minutesF (t : ℤ) : ℤ := (secsF t / 60) % 60

/-- The integer part of the `seconds` field: `delta.seconds % 60`. -/
def secondsIntF (t : ℤ) : ℤ := secsF t % 60

/-- The `seconds` float of `_value_to_text` (`delta.seconds % 60 + 1e-6 *
delta.microseconds`), held exactly as an integer count of microseconds. -/
def secMicroF (t : ℤ) : ℤ := secondsIntF t * 1000000 + microF t

/-- The seconds substring of `_value_to_text`:
`f'{seconds:02.0f}' if abs(seconds % 1.0) < 0.001 else f'{seconds:06.3f}'`.
`seconds % 1.0 = microF t / 1e6`, so the condition is `microF t < 1000`. -/
def secondsStrCL (t : ℤ) : List Char :=
  if microF t < 1000 then pad2 (rndHEdiv (secMicroF t) 1000000).toNat
  else pad2 ((rndHEdiv (secMicroF t) 1000) / 1000).toNat ++
    '.' :: pad3 ((rndHEdiv (secMicroF t) 1000) % 1000).toNat

/-- `_value_to_text(delta)` for a `timedelta` of `t` microseconds, as a
character list. -/
def value_to_textCL (t : ℤ) : List Char :=
  if 0 < daysF t then
    ntd (daysF t).toNat ++ ':' :: pad2 (hoursF t).toNat ++
      ':' :: pad2 (minutesF t).toNat ++ ':' :: secondsStrCL t
  else if 0 < hoursF t then
    pad2 (hoursF t).toNat ++ ':' :: pad2 (minutesF t).toNat ++ ':' :: secondsStrCL t
  else
    pad2 (minutesF t).toNat ++ ':' :: secondsStrCL t

/-- `_value_to_text(delta)` on `String`. -/
def value_to_text (t : ℤ) : String := String.mk (value_to_textCL t)

/-- The three `QValidator` states. -/
inductive QVState where
  | Invalid
  | Intermediate
  | Acceptable
deriving DecidableEq

/-- The character strip at the top of `TimeSpanEdit.validate`: keep only
`'0123456789:'` plus the locale decimal point. -/
def stripInvalid (l : List Char) : List Char :=
  l.filter (fun c => isDig c || c = ':' || c = '.')

/-- `timedelta(days=…, hours=…, minutes=…, seconds=q)` in microseconds, where
`q = secNum / 10 ^ secExp`: the integer arguments contribute exactly, the
float seconds argument is rounded half-even to whole microseconds. -/
def timedeltaOf (days hours minutes secNum secExp : ℕ) : ℤ :=
  (if secExp ≤ 6 then (secNum : ℤ) * 10 ^ (6 - secExp)
   else rndHEdiv (secNum : ℤ) (10 ^ (secExp - 6))) +
    1000000 * 60 * ((minutes : ℤ) + 60 * ((hours : ℤ) + 24 * (days : ℤ)))

/-- The per-field checks shared by `TimeSpanEdit.validate` (from the field
split onward).  Fields are read right to left: seconds, minutes, hours, days;
the more-than-four-fields check runs last, exactly as in the source. -/
def checkPartsV (parts : List (List Char)) : QVState :=
  if parts.length ≤ 4 && parts.any List.isEmpty then .Intermediate
  else
    match parts.reverse with
    | [] => .Intermediate
    | p0 :: rest =>
      match toDoubleCL p0 with
      | none => .Invalid
      | some (sn, sk) =>
        if 60 * 10 ^ sk < sn then .Intermediate
        else
          match rest with
          | [] => .Acceptable
          | p1 :: rest2 =>
            match toUShortCL p1 with
            | none => .Invalid
            | some m =>
              if 60 < m then .Intermediate
              else
                match rest2 with
                | [] => .Acceptable
                | p2 :: rest3 =>
                  match toUShortCL p2 with
                  | none => .Invalid
                  | some hrs =>
                    if 24 < hrs then .Intermediate
                    else
                      match rest3 with
                      | [] => .Acceptable
                      | p3 :: rest4 =>
                        match toULongLongCL p3 with
                        | none => .Invalid
                        | some _ =>
                          match rest4 with
                          | [] => .Acceptable
                          | _ => .Invalid

/-- `TimeSpanEdit.validate` after the character strip. -/
def validateStripped (l : List Char) : QVState :=
  if l.isEmpty then .Intermediate
  else if l.getLast? = some ':' then .Intermediate
  else checkPartsV (splitCL ':' l)

/-- `TimeSpanEdit.validate(text, _)`: the resulting `QValidator.State`. -/
def validate (text : String) : QVState :=
  validateStripped (stripInvalid text.toList)

/-- The `TimeSpanEdit.time_delta` property getter: parses the widget text,
raising `ValueError` (`none` here) on empty text, parse failures, out-of-range
fields, or more than four fields. -/
def time_deltaCL (l : List Char) : Option ℤ :=
  if l.isEmpty then none
  else
    match (splitCL ':' l).reverse with
    | [] => none
    | p0 :: rest =>
      match toDoubleCL p0 with
      | none => none
      | some (sn, sk) =>
        if 60 * 10 ^ sk < sn then none
        else
          match rest with
          | [] => some (timedeltaOf 0 0 0 sn sk)
          | p1 :: rest2 =>
            match toUShortCL p1 with
            | none => none
            | some m =>
              if 60 < m then none
              else
                match rest2 with
                | [] => some (timedeltaOf 0 0 m sn sk)
                | p2 :: rest3 =>
                  match toUShortCL p2 with
                  | none => none
                  | some hrs =>
                    if 24 < hrs then none
                    else
                      match rest3 with
                      | [] => some (timedeltaOf 0 hrs m sn sk)
                      | p3 :: rest4 =>
                        match toULongLongCL p3 with
                        | none => none
                        | some dd =>
                          match rest4 with
                          | [] => some (timedeltaOf dd hrs m sn sk)
                          | _ => none

/-- `TimeSpanEdit.time_delta` on `String`. -/
def time_delta (text : String) : Option ℤ := time_deltaCL text.toList

/-- `':'.join(parts)`. -/
def joinColon : List (List Char) → List Char
  | [] => []
  | [p] => p
  | p :: q :: rest => p ++ ':' :: joinColon (q :: rest)

/-- The text rewrite of `TimeSpanEdit.fixup`: fill empty fields with `'00'`,
then replace a (never actually occurring) empty result with `'00:00'`. -/
def fixupText (text : String) : String :=
  String.mk
    (if (joinColon ((splitCL ':' text.toList).map
          (fun p => if p.isEmpty then ['0', '0'] else p))).isEmpty
     then ['0', '0', ':', '0', '0']
     else joinColon ((splitCL ':' text.toList).map
          (fun p => if p.isEmpty then ['0', '0'] else p)))

/-- `TimeSpanEdit._on_edit_finished`, given the committed text and the stored
`_last_correct_delta` (microseconds).  Returns the final widget text, the
final `_last_correct_delta`, and whether `timeSpanChanged` was emitted;
`Except.error` is an uncaught `ValueError` escaping the slot.

The fix-up branch runs when `hasAcceptableInput()` is false (the validator
did not return `Acceptable`); inside `fixup`, `if not self.time_delta:`
evaluates the `time_delta` property of the rewritten text, which raises when
that text still does not parse, and takes the `_last_correct_delta` fallback
only when the rewritten text parses to a zero duration. -/
def on_edit_finished (lastGood : ℤ) (text : String) : Except Unit (String × ℤ × Bool) :=
  match
    (if validate text = .Acceptable then Except.ok text
     else
       match time_delta (fixupText text) with
       | none => Except.error ()
       | some v =>
         if v = 0 then Except.ok (value_to_text lastGood)
         else Except.ok (fixupText text) : Except Unit String)
  with
  | .error e => .error e
  | .ok text1 =>
    match time_delta text1 with
    | none => .error ()
    | some v1 =>
      -- `delta_changed = self.time_delta != self._last_correct_delta`, then
      -- `self.time_delta = self.time_delta` renormalizes text and stored delta.
      .ok (value_to_text v1, v1, decide (v1 ≠ lastGood))

/-- The `timedelta(**{('seconds', 'minutes', 'hours', 'days')[place]: 1})`
units of `TimeSpanEdit.stepBy`, in microseconds. -/
def fieldUnit : Fin 4 → ℤ := ![1000000, 60000000, 3600000000, 86400000000]

/-- `TimeSpanEdit.stepBy` at the duration level: `place` counts the colon
separators to the right of the edit cursor, and `self.time_delta +=
timedelta(**{field: steps})`. -/
def stepBy (t : ℤ) (place : Fin 4) (steps : ℤ) : ℤ := t + steps * fieldUnit place

/-! ### Time-range controller: the `start_time` / `end_time` / `time_span`
handlers of `src/gui/_plot.py` -/

/-- The state of the three linked widgets: `start_time` and `end_time` are
`QDateTimeEdit` values in milliseconds since the epoch, `spanUs` is the
committed `TimeSpanEdit` delta in microseconds, and `lowerBound` is
`start_time.minimumDateTime()` in milliseconds. -/
structure RangeState where
  startT : ℤ
  endT : ℤ
  spanUs : ℤ
  lowerBound : ℤ
deriving DecidableEq

/-- The three editing operations: a committed edit of the start time, of the
end time, or of the elapsed span (the span carried by `timeSpanChanged` is a
nonnegative `timedelta`, in microseconds here). -/
inductive RangeOp where
  | setStart (s : ℤ)
  | setEnd (e : ℤ)
  | setSpan (d : ℕ)
deriving DecidableEq

/-- `round(self.time_span.total_seconds() * 1000)`: the span in whole
milliseconds. -/
def spanMsOf (spanUs : ℤ) : ℤ := rndHEdiv spanUs 1000

/-- One settled edit cycle.

`setStart` is `on_start_time_changed`: the widget already committed the new
start; `from_two_q_date_time` then sets the span to `abs(end − start)`.

`setEnd` is `on_end_time_changed`: the widget already committed the new end;
the start moves to `end − round(span·1000) ms` unless that falls below
`start_time.minimumDateTime()`, in which case the start is clamped there and
the span is recomputed as `abs(end − start)`.

`setSpan` is `on_time_span_changed` with the same clamp; the end is kept. -/
def applyOp (st : RangeState) : RangeOp → RangeState
  | .setStart s => { st with startT := s, spanUs := 1000 * pyAbs (st.endT - s) }
  | .setEnd e =>
    if st.lowerBound ≤ e - spanMsOf st.spanUs then
      { st with endT := e, startT := e - spanMsOf st.spanUs }
    else
      { st with endT := e, startT := st.lowerBound,
                spanUs := 1000 * pyAbs (e - st.lowerBound) }
  | .setSpan d =>
    if st.lowerBound ≤ st.endT - spanMsOf (d : ℤ) then
      { st with startT := st.endT - spanMsOf (d : ℤ), spanUs := (d : ℤ) }
    else
      { st with startT := st.lowerBound,
                spanUs := 1000 * pyAbs (st.endT - st.lowerBound) }

/-- A sequence of settled edits. -/
def runOps (st : RangeState) (ops : List RangeOp) : RangeState := ops.foldl applyOp st

/-- Marks the operations for which the spec asserts `start ≥ lowerBound`
afterwards (`setEnd` and `setSpan`). -/
def RangeOp.clampsStart : RangeOp → Bool
  | .setEnd _ => true
  | .setSpan _ => true
  | .setStart _ => false

/-! ### Viewport auto-ranging: `Plot.auto_range_y` of
`src/vericold_plotter/gui/_plot.py` -/

/-- One plotted line: its visibility flag and its `(xData, yData)` sample
pairs; `none` is a NaN sample. -/
structure LineData where
  visible : Bool
  pts : List (Option ℚ × Option ℚ)

/-- Numpy-style interval membership: NaN compares `false`. -/
def inCl (lo hi : ℚ) (v : Option ℚ) : Bool :=
  match v with
  | some q => decide (lo ≤ q) && decide (q ≤ hi)
  | none => false

/-- `line.yData[(line.xData >= x_min) & (line.xData <= x_max)]`: the X-visible
Y slice of a line. -/
def yPiece (l : LineData) (xMin xMax : ℚ) : List (Option ℚ) :=
  (l.pts.filter (fun p => inCl xMin xMax p.1)).map Prod.snd

/-- Minimum of a rational list (`none` on an empty list). -/
def listMinQ : List ℚ → Option ℚ
  | [] => none
  | q :: rest =>
    match listMinQ rest with
    | none => some q
    | some m => some (min q m)

/-- Maximum of a rational list (`none` on an empty list). -/
def listMaxQ : List ℚ → Option ℚ
  | [] => none
  | q :: rest =>
    match listMaxQ rest with
    | none => some q
    | some m => some (max q m)

/-- `np.nanmin`: minimum ignoring NaN; `none` when no non-NaN value exists. -/
def nanminL (l : List (Option ℚ)) : Option ℚ := listMinQ (l.filterMap id)

/-- `np.nanmax`: maximum ignoring NaN. -/
def nanmaxL (l : List (Option ℚ)) : Option ℚ := listMaxQ (l.filterMap id)

/-- `d > 0` on a numpy sample: NaN is not positive. -/
def posCl (v : Option ℚ) : Bool :=
  match v with
  | some q => decide (0 < q)
  | none => false

/-- The `visible_data` list built by `Plot.auto_range_y`: for every visible
line with data, its X-visible Y slice, kept only when some slice sample falls
inside the current Y range. -/
def autoVisibleData (xMin xMax yMin yMax : ℚ) (lines : List LineData) :
    List (List (Option ℚ)) :=
  lines.filterMap (fun l =>
    if l.visible && !l.pts.isEmpty then
      if (yPiece l xMin xMax).any (inCl yMin yMax) then some (yPiece l xMin xMax)
      else none
    else none)

/-- The Y range committed by `setYRange`: either plain bounds, or—when the
left axis is in log mode—`log10` of the recorded positive bounds. -/
inductive YRange where
  | lin (lo hi : ℚ)
  | logOf (lo hi : ℚ)
deriving DecidableEq

/-- `Plot.auto_range_y` given the current view range `[xMin, xMax] × [yMin,
yMax]`, the left-axis log mode, and the plotted lines; `none` means the
method returns without touching the Y range. -/
def auto_range_y (xMin xMax yMin yMax : ℚ) (logModeY : Bool)
    (lines : List LineData) : Option YRange :=
  if (autoVisibleData xMin xMax yMin yMax lines).isEmpty then none
  else if logModeY then
    match
      listMinQ ((autoVisibleData xMin xMax yMin yMax lines).filterMap
        (fun d => nanminL (d.filter posCl))),
      listMaxQ ((autoVisibleData xMin xMax yMin yMax lines).filterMap
        (fun d => nanmaxL (d.filter posCl)))
    with
    | some a, some b => some (.logOf a b)
    | _, _ => none
  else
    match
      listMinQ ((autoVisibleData xMin xMax yMin yMax lines).filterMap nanminL),
      listMaxQ ((autoVisibleData xMin xMax yMin yMax lines).filterMap nanmaxL)
    with
    | some a, some b => some (.lin a b)
    | _, _ => none

/-- Modelled from the spec: a series qualifies only if at least one point of
its X-visible Y slice also falls inside the old Y range. -/
def qualifiesSpec (xMin xMax yMin yMax : ℚ) (l : LineData) : Bool :=
  (yPiece l xMin xMax).any (inCl yMin yMax)

/-- Modelled from the spec (`autoRangeY`, §4.3): over all qualifying visible
series with data, take min and max, ignoring NaN, of the union of their
entire X-visible Y slices; `none` when no series qualifies. -/
def autoRangeYSpec (xMin xMax yMin yMax : ℚ) (lines : List LineData) :
    Option (ℚ × ℚ) :=
  match
    listMinQ ((((lines.filter (fun l =>
        l.visible && !l.pts.isEmpty && qualifiesSpec xMin xMax yMin yMax l)).map
        (fun l => yPiece l xMin xMax)).flatten).filterMap id),
    listMaxQ ((((lines.filter (fun l =>
        l.visible && !l.pts.isEmpty && qualifiesSpec xMin xMax yMin yMax l)).map
        (fun l => yPiece l xMin xMax)).flatten).filterMap id)
  with
  | some a, some b => some (a, b)
  | _, _ => none

/-! ### `Plot.plot` X-column pairing and `Plot.replot` of
`src/vericold_plotter/gui/_plot.py` -/

/-- `header[x_column].endswith(("(secs)", "(s)"))`: does a column name denote
a time axis? -/
def timeColName (name : String) : Bool :=
  (decide (6 ≤ name.toList.length) &&
    name.toList.drop (name.toList.length - 6) == ['(', 's', 'e', 'c', 's', ')']) ||
  (decide (3 ≤ name.toList.length) &&
    name.toList.drop (name.toList.length - 3) == ['(', 's', ')'])

/-- Python `header.index(name)`: index of the first occurrence (callers
guarantee the name is present). -/
def headerIndex (header : List String) (name : String) : ℕ :=
  header.findIdx (fun s => s == name)

/-- The backward scan of `Plot.plot` / `Plot.replot`: starting at
`y_column - 1` and walking toward 0, the first column whose name denotes a
time axis; `none` when the scan falls off the left edge. -/
def scanX (header : List String) : ℕ → Option ℕ
  | 0 => none
  | n + 1 => if timeColName (header.getD n "") then some n else scanX header n

/-- The series created by `Plot.plot` when every requested Y column name is
present: each entry is `(y_column, x_column)`.  A Y column with no preceding
time column is skipped (`while … else: continue`). -/
def plotPairs (header : List String) (yCols : List String) : List (ℕ × ℕ) :=
  yCols.filterMap (fun name =>
    match scanX header (headerIndex header name) with
    | none => none
    | some x => some (headerIndex header name, x))

/-- NaN-propagating float subtraction. -/
def subV : Option ℚ → Option ℚ → Option ℚ
  | some a, some b => some (a - b)
  | _, _ => none

/-- NaN-propagating float addition. -/
def addV : Option ℚ → Option ℚ → Option ℚ
  | some a, some b => some (a + b)
  | _, _ => none

/-- NaN-propagating float `min`. -/
def minV : Option ℚ → Option ℚ → Option ℚ
  | some a, some b => some (min a b)
  | _, _ => none

/-- NaN-propagating float `max`. -/
def maxV : Option ℚ → Option ℚ → Option ℚ
  | some a, some b => some (max a b)
  | _, _ => none

/-- The plot state touched by `Plot.replot`: the plotted lines, the visible X
range (the bottom axis range), and `_last_time_range_rolled` (microseconds,
like `datetime`). -/
structure PlotState where
  lines : List LineData
  xRange : Option ℚ × Option ℚ
  lastRoll : ℤ

/-- The tail of `Plot.replot` after its guards: optionally roll the X window
by `new latest x − old latest x` (when rolling is requested, the line has
data, and at least a second passed since the last roll), then write the new
data into the line.  `line` is `self.lines[index]`. -/
def replotBody (st : PlotState) (index : ℕ) (newX newY : List (Option ℚ))
    (roll : Bool) (now : ℤ) : PlotState :=
  if roll && !(st.lines.getD index ⟨true, []⟩).pts.isEmpty &&
      decide (1000000 ≤ now - st.lastRoll) then
    { lines :=
        st.lines.set index
          ({ st.lines.getD index ⟨true, []⟩ with pts := newX.zip newY }),
      xRange :=
        (addV (minV st.xRange.1 st.xRange.2)
          (subV (newX.getLastD none)
            (((st.lines.getD index ⟨true, []⟩).pts.map Prod.fst).getLastD none)),
         addV (maxV st.xRange.1 st.xRange.2)
          (subV (newX.getLastD none)
            (((st.lines.getD index ⟨true, []⟩).pts.map Prod.fst).getLastD none))),
      lastRoll := now }
  else
    { st with
      lines :=
        st.lines.set index
          ({ st.lines.getD index ⟨true, []⟩ with pts := newX.zip newY }) }

/-- `Plot.replot(index, data_model, y_column_name, …, roll)`.  `dataCol i` is
`data_model[i]`; `now` is `datetime.now()` in microseconds.  Returns the
updated state; the two early guards return the state unchanged, as does a
failed X-column scan. -/
def replot (st : PlotState) (index : ℕ) (header : List String)
    (dataCol : ℕ → List (Option ℚ)) (yColName : Option String) (roll : Bool)
    (now : ℤ) : PlotState :=
  match yColName with
  | none => st
  | some name =>
    if st.lines.length ≤ index then st
    else
      match scanX header (headerIndex header name) with
      | none => st
      | some x =>
        replotBody st index (dataCol x) (dataCol (headerIndex header name)) roll now

/-! ### Derived definitions used by the statements -/

/-- The duration with the given days, hours, minutes and milliseconds-of-a-
minute breakdown, in microseconds. -/
def durationUs (d hrs m ms : ℕ) : ℤ :=
  ((d : ℤ) * 86400 + (hrs : ℤ) * 3600 + (m : ℤ) * 60) * 1000000 + (ms : ℤ) * 1000

/-- The `timedelta` field breakdown of `r` microseconds is a genuine
normalized carry/borrow decomposition: all fields nonnegative and in range,
recombining to `r`. -/
def normalizedBreakdown (r : ℤ) : Prop :=
  0 ≤ daysF r ∧ 0 ≤ hoursF r ∧ hoursF r ≤ 23 ∧ 0 ≤ minutesF r ∧ minutesF r ≤ 59 ∧
    0 ≤ secondsIntF r ∧ secondsIntF r ≤ 59 ∧ 0 ≤ microF r ∧ microF r ≤ 999999 ∧
    86400000000 * daysF r + 3600000000 * hoursF r + 60000000 * minutesF r +
      1000000 * secondsIntF r + microF r = r

/-- Merge of optional minima (the minimum over a concatenation). -/
def optMin : Option ℚ → Option ℚ → Option ℚ
  | none, b => b
  | some a, none => some a
  | some a, some b => some (min a b)

/-- Merge of optional maxima. -/
def optMax : Option ℚ → Option ℚ → Option ℚ
  | none, b => b
  | some a, none => some a
  | some a, some b => some (max a b)

/-! ### Controller lemmas -/

theorem pyAbs_nonneg (a : ℤ) : 0 ≤ pyAbs a := by
  unfold pyAbs
  split_ifs <;> omega

theorem pyAbs_of_nonneg (a : ℤ) (h : 0 ≤ a) : pyAbs a = a := by
  unfold pyAbs
  split_ifs <;> omega

/-- `round(span · 1000)` milliseconds is within half a millisecond of the
span, and nonnegative for a nonnegative span. -/
theorem spanMsOf_close (s : ℤ) (h : 0 ≤ s) :
    0 ≤ spanMsOf s ∧ (s - 1000 * spanMsOf s).natAbs ≤ 1000 := by
  unfold spanMsOf rndHEdiv
  split_ifs <;> omega

theorem applyOp_span_nonneg (st : RangeState) (op : RangeOp) (h : 0 ≤ st.spanUs) :
    0 ≤ (applyOp st op).spanUs := by
  cases op with
  | setStart s =>
    have := pyAbs_nonneg (st.endT - s)
    simp only [applyOp]
    omega
  | setEnd e =>
    by_cases hc : st.lowerBound ≤ e - spanMsOf st.spanUs
    · simpa [applyOp, hc] using h
    · have := pyAbs_nonneg (e - st.lowerBound)
      simp only [applyOp, if_neg hc]
      omega
  | setSpan d =>
    by_cases hc : st.lowerBound ≤ st.endT - spanMsOf (d : ℤ)
    · simp [applyOp, hc]
    · have := pyAbs_nonneg (st.endT - st.lowerBound)
      simp only [applyOp, if_neg hc]
      omega

theorem runOps_span_nonneg (ops : List RangeOp) (st : RangeState) (h : 0 ≤ st.spanUs) :
    0 ≤ (runOps st ops).spanUs := by
  induction ops generalizing st with
  | nil => exact h
  | cons op ops ih => exact ih (applyOp st op) (applyOp_span_nonneg st op h)

/-- One settled edit keeps the committed span within a millisecond of the
absolute difference of the end and start times, and the lower-bound clamp
holds for the end and span edits. -/
theorem applyOp_settles (st : RangeState) (op : RangeOp) (h : 0 ≤ st.spanUs) :
    ((applyOp st op).spanUs -
        1000 * pyAbs ((applyOp st op).endT - (applyOp st op).startT)).natAbs ≤ 1000 ∧
      (op.clampsStart = true →
        (applyOp st op).lowerBound ≤ (applyOp st op).startT) := by
  cases op with
  | setStart s =>
    refine ⟨?_, by simp [RangeOp.clampsStart]⟩
    simp only [applyOp]
    omega
  | setEnd e =>
    by_cases hc : st.lowerBound ≤ e - spanMsOf st.spanUs
    · obtain ⟨h1, h2⟩ := spanMsOf_close st.spanUs h
      have h3 : pyAbs (e - (e - spanMsOf st.spanUs)) = spanMsOf st.spanUs := by
        rw [show e - (e - spanMsOf st.spanUs) = spanMsOf st.spanUs by ring]
        exact pyAbs_of_nonneg _ h1
      simp only [applyOp, if_pos hc, h3]
      exact ⟨by omega, fun _ => hc⟩
    · simp only [applyOp, if_neg hc]
      exact ⟨by omega, fun _ => le_refl _⟩
  | setSpan d =>
    by_cases hc : st.lowerBound ≤ st.endT - spanMsOf (d : ℤ)
    · obtain ⟨h1, h2⟩ := spanMsOf_close (d : ℤ) (by positivity)
      have h3 : pyAbs (st.endT - (st.endT - spanMsOf (d : ℤ))) = spanMsOf (d : ℤ) := by
        rw [show st.endT - (st.endT - spanMsOf (d : ℤ)) = spanMsOf (d : ℤ) by ring]
        exact pyAbs_of_nonneg _ h1
      simp only [applyOp, if_pos hc, h3]
      exact ⟨by omega, fun _ => hc⟩
    · simp only [applyOp, if_neg hc]
      exact ⟨by omega, fun _ => le_refl _⟩

/-- C1 (amended): after any sequence of committed start / end / span edits
and one further edit, the committed span equals the absolute difference
`|end − start|` within 1 ms (not the signed difference `end − start`: a start
committed past the end makes the span its absolute value), and after an end
or span edit the start is at or above `start_time.minimumDateTime()`. -/
theorem range_controller_settle_invariant (init : RangeState) (ops : List RangeOp)
    (op : RangeOp) (hspan : 0 ≤ init.spanUs) :
    ((applyOp (runOps init ops) op).spanUs -
        1000 * pyAbs ((applyOp (runOps init ops) op).endT -
          (applyOp (runOps init ops) op).startT)).natAbs ≤ 1000 ∧
      (op.clampsStart = true →
        (applyOp (runOps init ops) op).lowerBound ≤
          (applyOp (runOps init ops) op).startT) :=
  applyOp_settles (runOps init ops) op (runOps_span_nonneg ops init hspan)

/-- Witness for C1's theorem at a concrete state and edit sequence. -/
theorem range_controller_settle_invariant_witness :
    (0 : ℤ) ≤ (⟨0, 0, 0, 0⟩ : RangeState).spanUs ∧
      (((applyOp (runOps ⟨0, 0, 0, 0⟩ [RangeOp.setStart 10000]) (RangeOp.setEnd 5000)).spanUs -
          1000 * pyAbs ((applyOp (runOps ⟨0, 0, 0, 0⟩ [RangeOp.setStart 10000])
              (RangeOp.setEnd 5000)).endT -
            (applyOp (runOps ⟨0, 0, 0, 0⟩ [RangeOp.setStart 10000])
              (RangeOp.setEnd 5000)).startT)).natAbs ≤ 1000 ∧
        ((RangeOp.setEnd 5000).clampsStart = true →
          (applyOp (runOps ⟨0, 0, 0, 0⟩ [RangeOp.setStart 10000]) (RangeOp.setEnd 5000)).lowerBound ≤
            (applyOp (runOps ⟨0, 0, 0, 0⟩ [RangeOp.setStart 10000]) (RangeOp.setEnd 5000)).startT)) :=
  ⟨by decide,
   range_controller_settle_invariant ⟨0, 0, 0, 0⟩ [RangeOp.setStart 10000]
     (RangeOp.setEnd 5000) (by decide)⟩

/-- Counterexample to C1 as stated: after committing a start 10 s past the
end, the displayed span is 10 s while `end − start` is −10 s, so the span
differs from `end − start` by 20 s, far more than 1 ms. -/
theorem range_controller_signed_span_counterexample :
    1000 <
      ((applyOp (runOps ⟨0, 0, 0, 0⟩ []) (RangeOp.setStart 10000)).spanUs -
        1000 * ((applyOp (runOps ⟨0, 0, 0, 0⟩ []) (RangeOp.setStart 10000)).endT -
          (applyOp (runOps ⟨0, 0, 0, 0⟩ []) (RangeOp.setStart 10000)).startT)).natAbs := by
  decide

/-- C8 (amended): a committed start edit stores the new start unconditionally
— no lower-bound clamp, end and bound untouched — and recomputes the
displayed span as the absolute difference `|end − newStart|` (not the signed
`end − newStart`: `from_two_q_date_time` takes `abs`). -/
theorem set_start_unclamped (st : RangeState) (s : ℤ) :
    (applyOp st (.setStart s)).startT = s ∧
      (applyOp st (.setStart s)).endT = st.endT ∧
      (applyOp st (.setStart s)).lowerBound = st.lowerBound ∧
      (applyOp st (.setStart s)).spanUs = 1000 * pyAbs (st.endT - s) :=
  ⟨rfl, rfl, rfl, rfl⟩

/-- Counterexample to C8 as stated: with end 0 and a new start 5 s later, the
recomputed span is +5 s, not `end − newStart = −5 s`. -/
theorem set_start_signed_span_counterexample :
    (applyOp ⟨0, 0, 0, 0⟩ (RangeOp.setStart 5000)).spanUs ≠
      1000 * ((⟨0, 0, 0, 0⟩ : RangeState).endT - 5000) := by
  decide

/-! ### `Plot.replot` guards -/

/-- C10: `Plot.replot` called with a `None` Y column name, or with an index
at or past the number of existing series, returns immediately: no series
data, no X range, and no last-roll timestamp changes, and nothing is raised. -/
theorem replot_guard_noop (st : PlotState) (index : ℕ) (header : List String)
    (dataCol : ℕ → List (Option ℚ)) (yColName : Option String) (roll : Bool)
    (now : ℤ) (h : yColName = none ∨ st.lines.length ≤ index) :
    replot st index header dataCol yColName roll now = st := by
  rcases h with h | h
  · subst h; rfl
  · cases yColName with
    | none => rfl
    | some name => simp [replot, h]

/-- Witness for C10's theorem: an out-of-range index on an empty line list. -/
theorem replot_guard_noop_witness :
    replot ⟨[], (none, none), 0⟩ 5 [] (fun _ => []) (some "V") true 0 =
      (⟨[], (none, none), 0⟩ : PlotState) :=
  replot_guard_noop ⟨[], (none, none), 0⟩ 5 [] (fun _ => []) (some "V") true 0
    (Or.inr (by decide))

/-! ### Duration stepping (C7) -/

theorem timedelta_fields_normalized (r : ℤ) (h : 0 ≤ r) : normalizedBreakdown r := by
  unfold normalizedBreakdown daysF hoursF minutesF secondsIntF microF secsF
  omega

/-- C7 (amended): `stepBy` adds `steps` times the selected field's unit to the
duration; whenever the result is still nonnegative the `timedelta`
normalization yields in-range, nonnegative fields with full carry/borrow
(e.g. +1 s at 59.5 s carries into the minutes field).  On underflow past zero
the result is NOT clamped to the zero duration: the negative total is kept
(and rendered with wrapped-around fields, the negative day count being
dropped by the formatter). -/
theorem stepBy_carries (t : ℤ) (place : Fin 4) (steps : ℤ)
    (h : 0 ≤ t + steps * fieldUnit place) :
    stepBy t place steps = t + steps * fieldUnit place ∧
      normalizedBreakdown (stepBy t place steps) :=
  ⟨rfl, timedelta_fields_normalized _ h⟩

/-- Witness for C7's theorem: the spec's own example, one second up from
59.5 s, which carries into the minutes field. -/
theorem stepBy_carries_witness :
    ((0 : ℤ) ≤ 59500000 + 1 * fieldUnit 0) ∧
      (stepBy 59500000 0 1 = 59500000 + 1 * fieldUnit 0 ∧
        normalizedBreakdown (stepBy 59500000 0 1)) :=
  ⟨by decide, stepBy_carries 59500000 0 1 (by decide)⟩

/-- Counterexample to C7 as stated: one second down from 0.5 s does not clamp
to the zero duration — the stored delta becomes −0.5 s and the widget text
wraps to `23:59:59.500`. -/
theorem stepBy_underflow_counterexample :
    stepBy 500000 0 (-1) = -500000 ∧
      value_to_text (stepBy 500000 0 (-1)) = "23:59:59.500" ∧
      stepBy 500000 0 (-1) < 0 := by
  refine ⟨by decide, ?_, by decide⟩
  decide

/-! ### Commit / fix-up behavior (C4) -/

/-- C4: the commit path raises instead of falling back.  The text `"99"` is
`Intermediate` (seconds above 60), so `_on_edit_finished` calls `fixup`;
`fixup`'s rewrite leaves `"99"` unchanged, and its `if not self.time_delta:`
then evaluates the `time_delta` property, which raises `ValueError` for a
seconds field above 60 — the exception escapes and `_last_correct_delta`
(here one day) is never restored. -/
theorem on_edit_finished_raises :
    validate "99" = QVState.Intermediate ∧ fixupText "99" = "99" ∧
      time_delta "99" = none ∧
      on_edit_finished 86400000000 "99" = .error () :=
  ⟨rfl, rfl, rfl, rfl⟩

/-! ### Digit-string lemmas -/

theorem isDig_digitChar (k : ℕ) : isDig (digitChar k) = true := by
  unfold digitChar
  rcases k with _ | _ | _ | _ | _ | _ | _ | _ | _ | _ | k <;> rfl

theorem dval_digitChar (k : ℕ) (h : k < 10) : dval (digitChar k) = some k := by
  interval_cases k <;> rfl

theorem mem_ntdAux_isDig : ∀ fuel n c, c ∈ ntdAux fuel n → isDig c = true := by
  intro fuel
  induction fuel with
  | zero => intro n c hc; simp [ntdAux] at hc
  | succ fuel ih =>
    intro n c hc
    unfold ntdAux at hc
    by_cases hn : n < 10
    · rw [if_pos hn] at hc
      simp only [List.mem_singleton] at hc
      subst hc
      exact isDig_digitChar n
    · rw [if_neg hn] at hc
      rcases List.mem_append.mp hc with hc | hc
      · exact ih _ _ hc
      · simp only [List.mem_singleton] at hc
        subst hc
        exact isDig_digitChar (n % 10)

theorem mem_ntd_isDig (n : ℕ) (c : Char) (h : c ∈ ntd n) : isDig c = true :=
  mem_ntdAux_isDig _ _ _ h

theorem ntdAux_ne_nil (fuel n : ℕ) : ntdAux (fuel + 1) n ≠ [] := by
  unfold ntdAux
  split_ifs <;> simp

theorem ntd_ne_nil (n : ℕ) : ntd n ≠ [] := ntdAux_ne_nil n n

theorem digitsVal_append_one (l : List Char) (c : Char) :
    digitsVal (l ++ [c]) = 10 * digitsVal l + (dval c).getD 0 := by
  unfold digitsVal
  rw [List.foldl_append]
  rfl

theorem ntdAux_val : ∀ fuel n, n ≤ fuel → digitsVal (ntdAux (fuel + 1) n) = n := by
  intro fuel
  induction fuel with
  | zero =>
    intro n hn
    interval_cases n
    rfl
  | succ fuel ih =>
    intro n hn
    by_cases h10 : n < 10
    · unfold ntdAux
      rw [if_pos h10]
      simp [digitsVal, dval_digitChar n h10]
    · unfold ntdAux
      rw [if_neg h10, digitsVal_append_one, ih (n / 10) (by omega),
        dval_digitChar (n % 10) (by omega)]
      simp
      omega

theorem ntd_val (n : ℕ) : digitsVal (ntd n) = n := ntdAux_val n n (le_refl n)

theorem mem_pad2_isDig (n : ℕ) (c : Char) (h : c ∈ pad2 n) : isDig c = true := by
  unfold pad2 at h
  split_ifs at h
  · rcases List.mem_cons.mp h with hc | hc
    · subst hc; rfl
    · exact mem_ntd_isDig _ _ hc
  · exact mem_ntd_isDig _ _ h

theorem pad2_ne_nil (n : ℕ) : pad2 n ≠ [] := by
  unfold pad2
  split_ifs
  · simp
  · exact ntd_ne_nil n

theorem pad2_val (n : ℕ) : digitsVal (pad2 n) = n := by
  unfold pad2
  split_ifs
  · show digitsVal ('0' :: ntd n) = n
    have : digitsVal ('0' :: ntd n) = digitsVal (ntd n) := rfl
    rw [this, ntd_val]
  · exact ntd_val n

theorem mem_pad3_isDig (n : ℕ) (c : Char) (h : c ∈ pad3 n) : isDig c = true := by
  unfold pad3 at h
  split_ifs at h <;>
    first
    | exact mem_ntd_isDig _ _ h
    | (rcases List.mem_cons.mp h with hc | h
       · subst hc; rfl
       · first
         | exact mem_ntd_isDig _ _ h
         | (rcases List.mem_cons.mp h with hc | h
            · subst hc; rfl
            · exact mem_ntd_isDig _ _ h))

theorem pad3_val (n : ℕ) : digitsVal (pad3 n) = n := by
  unfold pad3
  split_ifs
  · show digitsVal ('0' :: '0' :: ntd n) = n
    have : digitsVal ('0' :: '0' :: ntd n) = digitsVal (ntd n) := rfl
    rw [this, ntd_val]
  · show digitsVal ('0' :: ntd n) = n
    have : digitsVal ('0' :: ntd n) = digitsVal (ntd n) := rfl
    rw [this, ntd_val]
  · exact ntd_val n

theorem ntdAux_small (fuel n : ℕ) (h : n < 10) : ntdAux (fuel + 1) n = [digitChar n] := by
  unfold ntdAux
  rw [if_pos h]

theorem ntdAux_big (fuel n : ℕ) (h : ¬n < 10) :
    ntdAux (fuel + 1) n = ntdAux fuel (n / 10) ++ [digitChar (n % 10)] := by
  show (if n < 10 then [digitChar n] else ntdAux fuel (n / 10) ++ [digitChar (n % 10)]) =
    ntdAux fuel (n / 10) ++ [digitChar (n % 10)]
  rw [if_neg h]

theorem ntd_length1 (n : ℕ) (h : n < 10) : (ntd n).length = 1 := by
  unfold ntd
  rw [ntdAux_small _ _ h]
  rfl

theorem ntd_length2 (n : ℕ) (h1 : 10 ≤ n) (h2 : n < 100) : (ntd n).length = 2 := by
  unfold ntd
  rw [ntdAux_big _ _ (by omega)]
  obtain ⟨m, rfl⟩ : ∃ m, n = m + 1 := ⟨n - 1, by omega⟩
  rw [ntdAux_small _ _ (by omega)]
  rfl

theorem ntd_length3 (n : ℕ) (h1 : 100 ≤ n) (h2 : n < 1000) : (ntd n).length = 3 := by
  unfold ntd
  rw [ntdAux_big _ _ (by omega)]
  obtain ⟨m, rfl⟩ : ∃ m, n = m + 1 := ⟨n - 1, by omega⟩
  rw [ntdAux_big _ _ (by omega)]
  obtain ⟨k, rfl⟩ : ∃ k, m = k + 1 := ⟨m - 1, by omega⟩
  rw [ntdAux_small _ _ (by omega)]
  rfl

theorem pad3_length (n : ℕ) (h : n < 1000) : (pad3 n).length = 3 := by
  unfold pad3
  split_ifs with a b
  · show ('0' :: '0' :: ntd n).length = 3
    simp [ntd_length1 n a]
  · show ('0' :: ntd n).length = 3
    simp [ntd_length2 n (by omega) b]
  · exact ntd_length3 n (by omega) h

theorem not_mem_of_all_dig (l : List Char) (hd : ∀ c ∈ l, isDig c = true) (c : Char)
    (hc : isDig c = false) : c ∉ l := by
  intro hm
  rw [hd c hm] at hc
  cases hc

theorem getLast_ne_of_not_mem (l : List Char) (c : Char) (h : c ∉ l) :
    l.getLast? ≠ some c := by
  intro hc
  have hmem : c ∈ l.getLast? := by rw [hc]; rfl
  obtain ⟨hl, he⟩ := List.mem_getLast?_eq_getLast hmem
  exact h (he ▸ List.getLast_mem hl)

/-! ### `splitCL` lemmas -/

theorem splitCL_ne_nil (sep : Char) (l : List Char) : splitCL sep l ≠ [] := by
  cases l with
  | nil => simp [splitCL]
  | cons c rest =>
    unfold splitCL
    rcases hs : splitCL sep rest with _ | ⟨hh, tt⟩ <;> split_ifs <;> simp

theorem splitCL_no_sep (sep : Char) :
    ∀ l : List Char, sep ∉ l → splitCL sep l = [l] := by
  intro l
  induction l with
  | nil => intro; rfl
  | cons c rest ih =>
    intro hmem
    have hc : ¬c = sep := fun e => hmem (by simp [e])
    have hr : sep ∉ rest := fun hm => hmem (List.mem_cons_of_mem _ hm)
    unfold splitCL
    rw [ih hr]
    simp [hc]

theorem splitCL_append (sep : Char) :
    ∀ p rest, sep ∉ p → splitCL sep (p ++ sep :: rest) = p :: splitCL sep rest := by
  intro p
  induction p with
  | nil =>
    intro rest _
    show (match splitCL sep rest with
      | [] => [[sep]]
      | h :: t => if sep = sep then [] :: h :: t else (sep :: h) :: t) =
        [] :: splitCL sep rest
    rcases hs : splitCL sep rest with _ | ⟨hh, tt⟩
    · exact absurd hs (splitCL_ne_nil sep rest)
    · simp
  | cons c p ih =>
    intro rest hmem
    have hc : ¬c = sep := fun e => hmem (by simp [e])
    have hp : sep ∉ p := fun hm => hmem (List.mem_cons_of_mem _ hm)
    show (match splitCL sep (p ++ sep :: rest) with
      | [] => [[c]]
      | h :: t => if c = sep then [] :: h :: t else (c :: h) :: t) =
        (c :: p) :: splitCL sep rest
    rw [ih rest hp]
    simp [hc]

/-! ### Formatter shape (C6) -/

theorem count_colon_of_all_dig (l : List Char) (h : ∀ c ∈ l, isDig c = true) :
    l.count ':' = 0 :=
  List.count_eq_zero.mpr (not_mem_of_all_dig l h ':' rfl)

theorem count_colon_ntd (n : ℕ) : (ntd n).count ':' = 0 :=
  count_colon_of_all_dig _ (mem_ntd_isDig n)

theorem count_colon_pad2 (n : ℕ) : (pad2 n).count ':' = 0 :=
  count_colon_of_all_dig _ (mem_pad2_isDig n)

theorem count_colon_pad3 (n : ℕ) : (pad3 n).count ':' = 0 :=
  count_colon_of_all_dig _ (mem_pad3_isDig n)

theorem count_colon_secondsStr (t : ℤ) : (secondsStrCL t).count ':' = 0 := by
  unfold secondsStrCL
  split_ifs
  · exact count_colon_pad2 _
  · rw [List.count_append, count_colon_pad2, List.count_cons, count_colon_pad3]
    rfl

/-- C6 (amended): `_value_to_text` omits leading all-zero fields but never
goes below the minutes-and-seconds form: the text has three colon-separated
field boundaries (`d:hh:mm:ss`) when the duration reaches one day, two
(`hh:mm:ss`) when it reaches one hour, and otherwise exactly one (`mm:ss`) —
there is no seconds-only form even when days, hours and minutes are all
zero. -/
theorem value_to_text_shortest_form (t : ℤ) (h : 0 ≤ t) :
    (value_to_textCL t).count ':' =
      (if 86400000000 ≤ t then 3 else if 3600000000 ≤ t then 2 else 1) := by
  by_cases hbig : 86400000000 ≤ t
  · have h1 : 0 < daysF t := by unfold daysF; omega
    rw [if_pos hbig]
    unfold value_to_textCL
    rw [if_pos h1]
    simp [List.count_append, List.count_cons, count_colon_ntd, count_colon_pad2,
      count_colon_secondsStr]
  · by_cases hmid : 3600000000 ≤ t
    · have h1 : ¬0 < daysF t := by unfold daysF; omega
      have h2 : 0 < hoursF t := by unfold hoursF secsF; omega
      rw [if_neg hbig, if_pos hmid]
      unfold value_to_textCL
      rw [if_neg h1, if_pos h2]
      simp [List.count_append, List.count_cons, count_colon_pad2,
        count_colon_secondsStr]
    · have h1 : ¬0 < daysF t := by unfold daysF; omega
      have h2 : ¬0 < hoursF t := by unfold hoursF secsF; omega
      rw [if_neg hbig, if_neg hmid]
      unfold value_to_textCL
      rw [if_neg h1, if_neg h2]
      simp [List.count_append, List.count_cons, count_colon_pad2,
        count_colon_secondsStr]

/-- Witness for C6's theorem: five seconds renders with one colon (`00:05`). -/
theorem value_to_text_shortest_form_witness :
    (0 : ℤ) ≤ 5000000 ∧
      (value_to_textCL 5000000).count ':' =
        (if (86400000000 : ℤ) ≤ 5000000 then 3
         else if (3600000000 : ℤ) ≤ 5000000 then 2 else 1) :=
  ⟨by decide, value_to_text_shortest_form 5000000 (by decide)⟩

/-- Counterexample to C6 as stated: a duration of five seconds with zero
days, hours and minutes formats as `00:05`, not as the seconds-only `05`. -/
theorem value_to_text_no_seconds_only_counterexample :
    value_to_text 5000000 = "00:05" ∧ value_to_text 5000000 ≠ "05" := by
  constructor
  · decide
  · decide

/-! ### Viewport auto-range refinement (C2) -/

theorem listMinQ_append (l1 l2 : List ℚ) :
    listMinQ (l1 ++ l2) = optMin (listMinQ l1) (listMinQ l2) := by
  induction l1 with
  | nil => rfl
  | cons q rest ih =>
    simp only [List.cons_append, listMinQ, List.append_eq]
    rw [ih]
    rcases h1 : listMinQ rest with _ | m1 <;> rcases h2 : listMinQ l2 with _ | m2 <;>
      simp [optMin, min_assoc, h1, h2]

theorem listMaxQ_append (l1 l2 : List ℚ) :
    listMaxQ (l1 ++ l2) = optMax (listMaxQ l1) (listMaxQ l2) := by
  induction l1 with
  | nil => rfl
  | cons q rest ih =>
    simp only [List.cons_append, listMaxQ, List.append_eq]
    rw [ih]
    rcases h1 : listMaxQ rest with _ | m1 <;> rcases h2 : listMaxQ l2 with _ | m2 <;>
      simp [optMax, max_assoc, h1, h2]

/-- The minimum over the concatenation of slices equals the minimum of the
per-slice NaN-ignoring minima: Python's `min(np.nanmin(d) for d in ...)`. -/
theorem minQ_flatten : ∀ ps : List (List (Option ℚ)),
    listMinQ (ps.flatten.filterMap id) = listMinQ (ps.filterMap nanminL) := by
  intro ps
  induction ps with
  | nil => rfl
  | cons p rest ih =>
    show listMinQ ((p ++ rest.flatten).filterMap id) =
      listMinQ ((p :: rest).filterMap nanminL)
    rcases hm : nanminL p with _ | m
    · rw [List.filterMap_append, listMinQ_append, ih, List.filterMap_cons, hm]
      unfold nanminL at hm
      rw [hm]
      rfl
    · rw [List.filterMap_append, listMinQ_append, ih, List.filterMap_cons, hm]
      unfold nanminL at hm
      rw [hm]
      simp only [listMinQ]
      rcases h2 : listMinQ (rest.filterMap nanminL) with _ | k <;> rfl

theorem maxQ_flatten : ∀ ps : List (List (Option ℚ)),
    listMaxQ (ps.flatten.filterMap id) = listMaxQ (ps.filterMap nanmaxL) := by
  intro ps
  induction ps with
  | nil => rfl
  | cons p rest ih =>
    show listMaxQ ((p ++ rest.flatten).filterMap id) =
      listMaxQ ((p :: rest).filterMap nanmaxL)
    rcases hm : nanmaxL p with _ | m
    · rw [List.filterMap_append, listMaxQ_append, ih, List.filterMap_cons, hm]
      unfold nanmaxL at hm
      rw [hm]
      rfl
    · rw [List.filterMap_append, listMaxQ_append, ih, List.filterMap_cons, hm]
      unfold nanmaxL at hm
      rw [hm]
      simp only [listMaxQ]
      rcases h2 : listMaxQ (rest.filterMap nanmaxL) with _ | k <;> rfl

/-- The `visible_data` list of `Plot.auto_range_y` is exactly the X-visible Y
slices of the qualifying visible series. -/
theorem autoVisibleData_eq_spec (xMin xMax yMin yMax : ℚ) (lines : List LineData) :
    autoVisibleData xMin xMax yMin yMax lines =
      (lines.filter (fun l =>
        l.visible && !l.pts.isEmpty && qualifiesSpec xMin xMax yMin yMax l)).map
        (fun l => yPiece l xMin xMax) := by
  induction lines with
  | nil => rfl
  | cons l rest ih =>
    unfold autoVisibleData at ih ⊢
    rw [List.filterMap_cons, List.filter_cons, ih]
    cases h1 : (l.visible && !l.pts.isEmpty) with
    | false => simp [h1]
    | true =>
      cases h2 : (yPiece l xMin xMax).any (inCl yMin yMax) with
      | false => simp [h1, h2, qualifiesSpec]
      | true => simp [h1, h2, qualifiesSpec]

/-- C2: `auto_range_y` in linear mode refines the spec's `autoRangeY`: it
ranges over exactly the series whose X-visible Y slice meets the old Y range,
takes min and max (ignoring NaN) of the entire slices of those series, and
leaves the range alone when no series qualifies; in the spec's scenario — old
Y range [0, 2], one visible series with values [0, 1], another with values
[100, 1000] — the new range is [0, 1] regardless of the excluded series'
magnitude. -/
theorem auto_range_y_refines_spec :
    (∀ (xMin xMax yMin yMax : ℚ) (lines : List LineData),
        auto_range_y xMin xMax yMin yMax false lines =
          Option.map (fun p => YRange.lin p.1 p.2)
            (autoRangeYSpec xMin xMax yMin yMax lines)) ∧
      auto_range_y 0 10 0 2 false
          [⟨true, [(some 1, some 0), (some 2, some 1)]⟩,
           ⟨true, [(some 3, some 100), (some 4, some 1000)]⟩] =
        some (.lin 0 1) := by
  constructor
  · intro xMin xMax yMin yMax lines
    unfold auto_range_y autoRangeYSpec
    rw [autoVisibleData_eq_spec, minQ_flatten, maxQ_flatten]
    by_cases he : ((lines.filter (fun l =>
        l.visible && !l.pts.isEmpty && qualifiesSpec xMin xMax yMin yMax l)).map
          (fun l => yPiece l xMin xMax)).isEmpty = true
    · rw [if_pos he]
      rw [List.isEmpty_iff] at he
      rw [he]
      rfl
    · rw [if_neg he]
      rcases h1 : listMinQ (((lines.filter (fun l =>
          l.visible && !l.pts.isEmpty && qualifiesSpec xMin xMax yMin yMax l)).map
            (fun l => yPiece l xMin xMax)).filterMap nanminL) with _ | a <;>
        rcases h2 : listMaxQ (((lines.filter (fun l =>
          l.visible && !l.pts.isEmpty && qualifiesSpec xMin xMax yMin yMax l)).map
            (fun l => yPiece l xMin xMax)).filterMap nanmaxL) with _ | b <;>
        rw [h1, h2] <;> rfl
  · decide

/-! ### `Plot.plot` X-column pairing (C9) -/

theorem length_filterMap_eq_countP {α β : Type} (f : α → Option β) (l : List α) :
    (l.filterMap f).length = l.countP (fun a => (f a).isSome) := by
  induction l with
  | nil => rfl
  | cons a l ih => cases h : f a <;> simp [List.filterMap_cons, List.countP_cons, h, ih]

/-- The backward scan finds the nearest preceding time-axis column: the found
index is below the Y column, names a time column, and no index strictly
between them does. -/
theorem scanX_spec (header : List String) :
    ∀ n x, scanX header n = some x →
      x < n ∧ timeColName (header.getD x "") = true ∧
        ∀ j, x < j → j < n → timeColName (header.getD j "") = false := by
  intro n
  induction n with
  | zero => intro x hx; simp [scanX] at hx
  | succ n ih =>
    intro x hx
    unfold scanX at hx
    by_cases hc : timeColName (header.getD n "") = true
    · rw [if_pos hc] at hx
      obtain rfl : n = x := by injection hx
      exact ⟨Nat.lt_succ_self n, hc, fun j hj1 hj2 => by omega⟩
    · have hcf : timeColName (header.getD n "") = false := by
        revert hc; cases timeColName (header.getD n "") <;> simp
      rw [if_neg hc] at hx
      obtain ⟨hlt, htc, hbetween⟩ := ih x hx
      refine ⟨by omega, htc, fun j hj1 hj2 => ?_⟩
      by_cases hj : j < n
      · exact hbetween j hj1 hj
      · have : j = n := by omega
        subst this
        exact hcf

/-- C9 (amended): `Plot.plot` pairs each requested Y column with the nearest
preceding time-axis column; a Y column with no preceding time column is
SKIPPED — no series is appended for it (so the series count equals the number
of requested Y columns that have a pairing, not the number requested) — and
the method does not raise. -/
theorem plot_skips_unpaired (header yCols : List String) :
    (plotPairs header yCols).length =
        yCols.countP (fun nm => (scanX header (headerIndex header nm)).isSome) ∧
      ∀ y x, (y, x) ∈ plotPairs header yCols →
        x < y ∧ timeColName (header.getD x "") = true ∧
          ∀ j, x < j → j < y → timeColName (header.getD j "") = false := by
  constructor
  · unfold plotPairs
    rw [length_filterMap_eq_countP]
    congr 1
    funext nm
    rcases hs : scanX header (headerIndex header nm) with _ | x <;> simp [hs]
  · intro y x hmem
    unfold plotPairs at hmem
    rw [List.mem_filterMap] at hmem
    obtain ⟨nm, _, heq⟩ := hmem
    rcases hs : scanX header (headerIndex header nm) with _ | x0
    · rw [hs] at heq
      cases heq
    · rw [hs] at heq
      injection heq with heq
      have h1 : headerIndex header nm = y := congrArg Prod.fst heq
      have h2 : x0 = x := congrArg Prod.snd heq
      subst h1
      subst h2
      exact scanX_spec header _ _ hs

/-- Witness for C9's theorem: header `["T(s)", "V"]`, plotting `"V"` pairs it
with column 0. -/
theorem plot_skips_unpaired_witness :
    timeColName ((["T(s)", "V"] : List String).getD 0 "") = true ∧ (0 : ℕ) < 1 :=
  ⟨((plot_skips_unpaired ["T(s)", "V"] ["V"]).2 1 0 (by decide)).2.1,
   ((plot_skips_unpaired ["T(s)", "V"] ["V"]).2 1 0 (by decide)).1⟩

/-- Counterexample to C9 as stated: with header `["A"]` (no time column),
plotting Y column `"A"` creates no series at all — the series count is 0, not
the 1 requested, and no empty-data series exists. -/
theorem plot_unpaired_skip_counterexample :
    plotPairs ["A"] ["A"] = [] ∧
      (plotPairs ["A"] ["A"]).length ≠ (["A"] : List String).length := by
  constructor
  · decide
  · decide

/-! ### Validator field-count rule (C5) -/

/-- C5 (amended): the more-than-four-fields rule runs AFTER the per-field
checks, not before them: a text whose stripped form splits into five or more
fields is `Invalid` provided the text does not end in `':'` and the trailing
four fields pass their per-field checks (seconds parse with value at most 60,
minutes and hours parse with values at most 60 and 24, days parse).  When an
earlier per-field check fires first the result can instead be `Intermediate`
(see the counterexample), so rule 3 does not take precedence.  In particular
`validate "1:2:3:4:5" = Invalid` still holds (the witness). -/
theorem validate_five_fields (text : String) (p0 p1 p2 p3 : List Char)
    (rest : List (List Char)) (sn sk m hrs : ℕ)
    (hlast : (stripInvalid text.toList).getLast? ≠ some ':')
    (hsplit : (splitCL ':' (stripInvalid text.toList)).reverse =
      p0 :: p1 :: p2 :: p3 :: rest)
    (hrest : rest ≠ [])
    (hsec : toDoubleCL p0 = some (sn, sk)) (hsec2 : sn ≤ 60 * 10 ^ sk)
    (hmin : toUShortCL p1 = some m) (hmin2 : m ≤ 60)
    (hhrs : toUShortCL p2 = some hrs) (hhrs2 : hrs ≤ 24)
    (hday : (toULongLongCL p3).isSome = true) :
    validate text = QVState.Invalid := by
  unfold validate validateStripped
  have hne : (stripInvalid text.toList).isEmpty = false := by
    cases hl : stripInvalid text.toList with
    | nil => rw [hl] at hsplit; simp [splitCL] at hsplit
    | cons c cs => rfl
  rw [if_neg (by rw [hne]; simp)]
  rw [if_neg hlast]
  unfold checkPartsV
  have hlen : ¬(splitCL ':' (stripInvalid text.toList)).length ≤ 4 := by
    have h4 := congrArg List.length hsplit
    rw [List.length_reverse] at h4
    have h5 : 0 < rest.length := List.length_pos.mpr hrest
    simp only [List.length_cons] at h4
    omega
  have hcond : (decide ((splitCL ':' (stripInvalid text.toList)).length ≤ 4) &&
      (splitCL ':' (stripInvalid text.toList)).any List.isEmpty) = false := by
    rw [decide_eq_false hlen]
    rfl
  rw [if_neg (by rw [hcond]; simp)]
  rw [hsplit]
  rcases hdv : toULongLongCL p3 with _ | dd
  · rw [hdv] at hday; simp at hday
  · cases rest with
    | nil => exact absurd rfl hrest
    | cons r rs =>
      simp only [hsec, hmin, hhrs, hdv, if_neg (show ¬60 * 10 ^ sk < sn by omega),
        if_neg (show ¬60 < m by omega), if_neg (show ¬24 < hrs by omega)]

/-- Witness for C5's theorem: the claim's own instance, `"1:2:3:4:5"`, is
`Invalid`. -/
theorem validate_five_fields_witness : validate "1:2:3:4:5" = QVState.Invalid :=
  validate_five_fields "1:2:3:4:5" ['5'] ['4'] ['3'] ['2'] [['1']] 5 0 4 3
    (by decide) (by decide) (by decide) (by decide) (by decide) (by decide)
    (by decide) (by decide) (by decide) (by decide)

/-- Counterexample to C5 as stated: `"1:2:3:4:99"` has five fields but the
seconds check (99 > 60, `Intermediate`) fires before the five-field rule, so
the result is `Intermediate`, not `Invalid`. -/
theorem validate_five_fields_counterexample :
    validate "1:2:3:4:99" = QVState.Intermediate ∧
      QVState.Intermediate ≠ QVState.Invalid := by
  constructor
  · decide
  · decide

/-! ### Round-trip support lemmas (C3) -/

theorem pad3_ne_nil (n : ℕ) : pad3 n ≠ [] := by
  unfold pad3
  split_ifs
  · simp
  · simp
  · exact ntd_ne_nil n

theorem isEmpty_false_of_ne_nil {α : Type} (l : List α) (h : l ≠ []) :
    l.isEmpty = false := by
  simp [h]

theorem pad2_all_isDig (n : ℕ) : (pad2 n).all isDig = true := by
  rw [List.all_eq_true]
  intro c hc
  exact mem_pad2_isDig n c hc

theorem pad3_all_isDig (n : ℕ) : (pad3 n).all isDig = true := by
  rw [List.all_eq_true]
  intro c hc
  exact mem_pad3_isDig n c hc

theorem ntd_all_isDig (n : ℕ) : (ntd n).all isDig = true := by
  rw [List.all_eq_true]
  intro c hc
  exact mem_ntd_isDig n c hc

theorem toUShort_pad2 (n : ℕ) (h : n ≤ 65535) : toUShortCL (pad2 n) = some n := by
  unfold toUShortCL parseNatCL
  rw [isEmpty_false_of_ne_nil _ (pad2_ne_nil n), pad2_all_isDig]
  simp [pad2_val, h]

theorem toULongLong_ntd (n : ℕ) (h : n ≤ 18446744073709551615) :
    toULongLongCL (ntd n) = some n := by
  unfold toULongLongCL parseNatCL
  rw [isEmpty_false_of_ne_nil _ (ntd_ne_nil n), ntd_all_isDig]
  simp [ntd_val, h]

theorem not_dot_pad2 (n : ℕ) : '.' ∉ pad2 n :=
  not_mem_of_all_dig _ (mem_pad2_isDig n) '.' rfl

theorem not_dot_pad3 (n : ℕ) : '.' ∉ pad3 n :=
  not_mem_of_all_dig _ (mem_pad3_isDig n) '.' rfl

theorem toDouble_pad2 (n : ℕ) : toDoubleCL (pad2 n) = some (n, 0) := by
  unfold toDoubleCL
  rw [splitCL_no_sep '.' (pad2 n) (not_dot_pad2 n)]
  simp [isEmpty_false_of_ne_nil _ (pad2_ne_nil n), pad2_all_isDig, pad2_val]

theorem toDouble_secfrac (s f : ℕ) (hf : f < 1000) :
    toDoubleCL (pad2 s ++ '.' :: pad3 f) = some (s * 1000 + f, 3) := by
  unfold toDoubleCL
  rw [splitCL_append '.' (pad2 s) (pad3 f) (not_dot_pad2 s),
    splitCL_no_sep '.' (pad3 f) (not_dot_pad3 f)]
  simp [isEmpty_false_of_ne_nil _ (pad2_ne_nil s), pad2_all_isDig, pad3_all_isDig,
    pad2_val, pad3_val, pad3_length f hf]

theorem getLast?_cons_ne {α : Type} (c : α) (l : List α) (h : l ≠ []) :
    (c :: l).getLast? = l.getLast? := by
  cases l with
  | nil => exact absurd rfl h
  | cons a as => exact List.getLast?_cons_cons

theorem stripInvalid_dig (l : List Char) (h : ∀ c ∈ l, isDig c = true) :
    stripInvalid l = l :=
  List.filter_eq_self.mpr (fun c hc => by rw [h c hc]; rfl)

theorem stripInvalid_digdot (l : List Char) (h : ∀ c ∈ l, isDig c = true ∨ c = '.') :
    stripInvalid l = l := by
  apply List.filter_eq_self.mpr
  intro c hc
  rcases h c hc with hd | rfl
  · rw [hd]; rfl
  · rfl

theorem stripInvalid_append (l1 l2 : List Char) :
    stripInvalid (l1 ++ l2) = stripInvalid l1 ++ stripInvalid l2 :=
  List.filter_append ..

theorem stripInvalid_colon_cons (l : List Char) :
    stripInvalid (':' :: l) = ':' :: stripInvalid l := rfl

/-- Validation and parsing of a four-field `d:hh:mm:ss` text, given the
per-field parses. -/
theorem parts4_ok (pd ph pm2 ps : List Char) (dd hh2 mm2 sn sk : ℕ)
    (hpd : toULongLongCL pd = some dd)
    (hph : toUShortCL ph = some hh2) (hph2 : hh2 ≤ 24)
    (hpm : toUShortCL pm2 = some mm2) (hpm2 : mm2 ≤ 60)
    (hps : toDoubleCL ps = some (sn, sk)) (hps2 : sn ≤ 60 * 10 ^ sk)
    (hpd_dig : ∀ c ∈ pd, isDig c = true) (hpd_ne : pd ≠ [])
    (hph_dig : ∀ c ∈ ph, isDig c = true) (hph_ne : ph ≠ [])
    (hpm_dig : ∀ c ∈ pm2, isDig c = true) (hpm_ne : pm2 ≠ [])
    (hps_colon : ':' ∉ ps) (hps_ne : ps ≠ [])
    (hps_last : ps.getLast? ≠ some ':') :
    validateStripped (pd ++ ':' :: ph ++ ':' :: pm2 ++ ':' :: ps) = .Acceptable ∧
      time_deltaCL (pd ++ ':' :: ph ++ ':' :: pm2 ++ ':' :: ps) =
        some (timedeltaOf dd hh2 mm2 sn sk) := by
  have hLne : pd ++ ':' :: ph ++ ':' :: pm2 ++ ':' :: ps ≠ [] := by
    cases pd <;> simp
  have hassoc : pd ++ ':' :: ph ++ ':' :: pm2 ++ ':' :: ps =
      pd ++ ':' :: (ph ++ ':' :: (pm2 ++ ':' :: ps)) := by
    simp
  have hsplit : splitCL ':' (pd ++ ':' :: ph ++ ':' :: pm2 ++ ':' :: ps) =
      [pd, ph, pm2, ps] := by
    rw [hassoc]
    rw [splitCL_append ':' pd _ (not_mem_of_all_dig pd hpd_dig ':' rfl),
      splitCL_append ':' ph _ (not_mem_of_all_dig ph hph_dig ':' rfl),
      splitCL_append ':' pm2 _ (not_mem_of_all_dig pm2 hpm_dig ':' rfl),
      splitCL_no_sep ':' ps hps_colon]
  have hglast : (pd ++ ':' :: ph ++ ':' :: pm2 ++ ':' :: ps).getLast? = ps.getLast? := by
    rw [hassoc]
    rw [List.getLast?_append_of_ne_nil _ (by simp),
      getLast?_cons_ne _ _ (by cases ph <;> simp),
      List.getLast?_append_of_ne_nil _ (by simp),
      getLast?_cons_ne _ _ (by cases pm2 <;> simp),
      List.getLast?_append_of_ne_nil _ (by simp),
      getLast?_cons_ne _ _ hps_ne]
  have hrev : ([pd, ph, pm2, ps] : List (List Char)).reverse = [ps, pm2, ph, pd] := rfl
  have hany : ([pd, ph, pm2, ps] : List (List Char)).any List.isEmpty = false := by
    simp [isEmpty_false_of_ne_nil _ hpd_ne, isEmpty_false_of_ne_nil _ hph_ne,
      isEmpty_false_of_ne_nil _ hpm_ne, isEmpty_false_of_ne_nil _ hps_ne]
  constructor
  · unfold validateStripped
    rw [if_neg (by rw [isEmpty_false_of_ne_nil _ hLne]; simp),
      if_neg (by rw [hglast]; exact hps_last)]
    unfold checkPartsV
    rw [hsplit, hrev]
    simp [hany, hps, hpm, hph, hpd,
      (show ¬60 * 10 ^ sk < sn by omega), (show ¬60 < mm2 by omega),
      (show ¬24 < hh2 by omega)]
  · unfold time_deltaCL
    rw [if_neg (by rw [isEmpty_false_of_ne_nil _ hLne]; simp)]
    rw [hsplit, hrev]
    simp [hps, hpm, hph, hpd,
      (show ¬60 * 10 ^ sk < sn by omega), (show ¬60 < mm2 by omega),
      (show ¬24 < hh2 by omega)]

/-- Validation and parsing of a three-field `hh:mm:ss` text. -/
theorem parts3_ok (ph pm2 ps : List Char) (hh2 mm2 sn sk : ℕ)
    (hph : toUShortCL ph = some hh2) (hph2 : hh2 ≤ 24)
    (hpm : toUShortCL pm2 = some mm2) (hpm2 : mm2 ≤ 60)
    (hps : toDoubleCL ps = some (sn, sk)) (hps2 : sn ≤ 60 * 10 ^ sk)
    (hph_dig : ∀ c ∈ ph, isDig c = true) (hph_ne : ph ≠ [])
    (hpm_dig : ∀ c ∈ pm2, isDig c = true) (hpm_ne : pm2 ≠ [])
    (hps_colon : ':' ∉ ps) (hps_ne : ps ≠ [])
    (hps_last : ps.getLast? ≠ some ':') :
    validateStripped (ph ++ ':' :: pm2 ++ ':' :: ps) = .Acceptable ∧
      time_deltaCL (ph ++ ':' :: pm2 ++ ':' :: ps) =
        some (timedeltaOf 0 hh2 mm2 sn sk) := by
  have hLne : ph ++ ':' :: pm2 ++ ':' :: ps ≠ [] := by
    cases ph <;> simp
  have hassoc : ph ++ ':' :: pm2 ++ ':' :: ps = ph ++ ':' :: (pm2 ++ ':' :: ps) := by
    simp
  have hsplit : splitCL ':' (ph ++ ':' :: pm2 ++ ':' :: ps) = [ph, pm2, ps] := by
    rw [hassoc]
    rw [splitCL_append ':' ph _ (not_mem_of_all_dig ph hph_dig ':' rfl),
      splitCL_append ':' pm2 _ (not_mem_of_all_dig pm2 hpm_dig ':' rfl),
      splitCL_no_sep ':' ps hps_colon]
  have hglast : (ph ++ ':' :: pm2 ++ ':' :: ps).getLast? = ps.getLast? := by
    rw [hassoc]
    rw [List.getLast?_append_of_ne_nil _ (by simp),
      getLast?_cons_ne _ _ (by cases pm2 <;> simp),
      List.getLast?_append_of_ne_nil _ (by simp),
      getLast?_cons_ne _ _ hps_ne]
  have hrev : ([ph, pm2, ps] : List (List Char)).reverse = [ps, pm2, ph] := rfl
  have hany : ([ph, pm2, ps] : List (List Char)).any List.isEmpty = false := by
    simp [isEmpty_false_of_ne_nil _ hph_ne, isEmpty_false_of_ne_nil _ hpm_ne,
      isEmpty_false_of_ne_nil _ hps_ne]
  constructor
  · unfold validateStripped
    rw [if_neg (by rw [isEmpty_false_of_ne_nil _ hLne]; simp),
      if_neg (by rw [hglast]; exact hps_last)]
    unfold checkPartsV
    rw [hsplit, hrev]
    simp [hany, hps, hpm, hph,
      (show ¬60 * 10 ^ sk < sn by omega), (show ¬60 < mm2 by omega),
      (show ¬24 < hh2 by omega)]
  · unfold time_deltaCL
    rw [if_neg (by rw [isEmpty_false_of_ne_nil _ hLne]; simp)]
    rw [hsplit, hrev]
    simp [hps, hpm, hph,
      (show ¬60 * 10 ^ sk < sn by omega), (show ¬60 < mm2 by omega),
      (show ¬24 < hh2 by omega)]

/-- Validation and parsing of a two-field `mm:ss` text. -/
theorem parts2_ok (pm2 ps : List Char) (mm2 sn sk : ℕ)
    (hpm : toUShortCL pm2 = some mm2) (hpm2 : mm2 ≤ 60)
    (hps : toDoubleCL ps = some (sn, sk)) (hps2 : sn ≤ 60 * 10 ^ sk)
    (hpm_dig : ∀ c ∈ pm2, isDig c = true) (hpm_ne : pm2 ≠ [])
    (hps_colon : ':' ∉ ps) (hps_ne : ps ≠ [])
    (hps_last : ps.getLast? ≠ some ':') :
    validateStripped (pm2 ++ ':' :: ps) = .Acceptable ∧
      time_deltaCL (pm2 ++ ':' :: ps) = some (timedeltaOf 0 0 mm2 sn sk) := by
  have hLne : pm2 ++ ':' :: ps ≠ [] := by
    cases pm2 <;> simp
  have hsplit : splitCL ':' (pm2 ++ ':' :: ps) = [pm2, ps] := by
    rw [splitCL_append ':' pm2 _ (not_mem_of_all_dig pm2 hpm_dig ':' rfl),
      splitCL_no_sep ':' ps hps_colon]
  have hglast : (pm2 ++ ':' :: ps).getLast? = ps.getLast? := by
    rw [List.getLast?_append_of_ne_nil _ (by simp),
      getLast?_cons_ne _ _ hps_ne]
  have hrev : ([pm2, ps] : List (List Char)).reverse = [ps, pm2] := rfl
  have hany : ([pm2, ps] : List (List Char)).any List.isEmpty = false := by
    simp [isEmpty_false_of_ne_nil _ hpm_ne, isEmpty_false_of_ne_nil _ hps_ne]
  constructor
  · unfold validateStripped
    rw [if_neg (by rw [isEmpty_false_of_ne_nil _ hLne]; simp),
      if_neg (by rw [hglast]; exact hps_last)]
    unfold checkPartsV
    rw [hsplit, hrev]
    simp [hany, hps, hpm,
      (show ¬60 * 10 ^ sk < sn by omega), (show ¬60 < mm2 by omega)]
  · unfold time_deltaCL
    rw [if_neg (by rw [isEmpty_false_of_ne_nil _ hLne]; simp)]
    rw [hsplit, hrev]
    simp [hps, hpm,
      (show ¬60 * 10 ^ sk < sn by omega), (show ¬60 < mm2 by omega)]

/-- The seconds substring produced by `_value_to_text` for a duration whose
seconds-of-minute part is `ms` milliseconds: it parses back exactly, stays at
or below 60, contains only digits and at most one dot, and is nonempty with a
digit as its last character. -/
theorem secondsStr_spec (ms : ℕ) (hms : ms ≤ 59999) (t : ℤ)
    (hmicro : microF t = ((ms : ℤ) % 1000) * 1000)
    (hsm : secMicroF t = (ms : ℤ) * 1000) :
    ∃ sn sk : ℕ,
      toDoubleCL (secondsStrCL t) = some (sn, sk) ∧
      sn ≤ 60 * 10 ^ sk ∧
      (if sk ≤ 6 then (sn : ℤ) * 10 ^ (6 - sk)
       else rndHEdiv (sn : ℤ) (10 ^ (sk - 6))) = (ms : ℤ) * 1000 ∧
      (∀ c ∈ secondsStrCL t, isDig c = true ∨ c = '.') ∧
      secondsStrCL t ≠ [] ∧
      ':' ∉ secondsStrCL t ∧
      (secondsStrCL t).getLast? ≠ some ':' := by
  by_cases hz : ms % 1000 = 0
  · have hlt : microF t < 1000 := by rw [hmicro]; omega
    have hrnd : (rndHEdiv (secMicroF t) 1000000).toNat = ms / 1000 := by
      rw [hsm]; unfold rndHEdiv; split_ifs <;> omega
    have hA : secondsStrCL t = pad2 (ms / 1000) := by
      unfold secondsStrCL
      rw [if_pos hlt, hrnd]
    refine ⟨ms / 1000, 0, ?_, ?_, ?_, ?_, ?_, ?_, ?_⟩
    · rw [hA]; exact toDouble_pad2 _
    · have h59 : ms / 1000 ≤ 59 := by omega
      calc ms / 1000 ≤ 59 := h59
        _ ≤ 60 * 10 ^ 0 := by norm_num
    · rw [if_pos (by omega)]
      have he : ((ms / 1000 : ℕ) : ℤ) * 10 ^ (6 - 0) =
          ((ms / 1000 : ℕ) : ℤ) * 1000000 := by norm_num
      rw [he]
      omega
    · rw [hA]; intro c hc; exact Or.inl (mem_pad2_isDig _ c hc)
    · rw [hA]; exact pad2_ne_nil _
    · rw [hA]; exact not_mem_of_all_dig _ (mem_pad2_isDig _) ':' rfl
    · rw [hA]
      exact getLast_ne_of_not_mem _ ':' (not_mem_of_all_dig _ (mem_pad2_isDig _) ':' rfl)
  · have hlt : ¬microF t < 1000 := by rw [hmicro]; omega
    have hrnd : rndHEdiv (secMicroF t) 1000 = (ms : ℤ) := by
      rw [hsm]; unfold rndHEdiv; split_ifs <;> omega
    have h1 : (rndHEdiv (secMicroF t) 1000 / 1000).toNat = ms / 1000 := by
      rw [hrnd]; omega
    have h2 : (rndHEdiv (secMicroF t) 1000 % 1000).toNat = ms % 1000 := by
      rw [hrnd]; omega
    have hB : secondsStrCL t = pad2 (ms / 1000) ++ '.' :: pad3 (ms % 1000) := by
      unfold secondsStrCL
      rw [if_neg hlt, h1, h2]
    refine ⟨ms, 3, ?_, ?_, ?_, ?_, ?_, ?_, ?_⟩
    · rw [hB, toDouble_secfrac (ms / 1000) (ms % 1000) (by omega)]
      have hsum : ms / 1000 * 1000 + ms % 1000 = ms := by omega
      rw [hsum]
    · have h6 : (60 : ℕ) * 10 ^ 3 = 60000 := by norm_num
      omega
    · rw [if_pos (by omega)]
      norm_num
    · rw [hB]
      intro c hc
      rcases List.mem_append.mp hc with hc | hc
      · exact Or.inl (mem_pad2_isDig _ c hc)
      · rcases List.mem_cons.mp hc with rfl | hc
        · exact Or.inr rfl
        · exact Or.inl (mem_pad3_isDig _ c hc)
    · rw [hB]; simp
    · rw [hB]
      intro hc
      rcases List.mem_append.mp hc with hc | hc
      · exact absurd (mem_pad2_isDig _ ':' hc) (by decide)
      · rcases List.mem_cons.mp hc with he | hc
        · exact absurd he (by decide)
        · exact absurd (mem_pad3_isDig _ ':' hc) (by decide)
    · rw [hB]
      rw [List.getLast?_append_of_ne_nil _ (by simp),
        getLast?_cons_ne _ _ (pad3_ne_nil _)]
      exact getLast_ne_of_not_mem _ ':' (not_mem_of_all_dig _ (mem_pad3_isDig _) ':' rfl)

/-- C3: round-trip of the duration codec.  For every duration with days in
[0, 10], hours in [0, 23], minutes in [0, 59], and seconds in [0, 59.999]
(millisecond precision), the formatted text validates as `Acceptable` and
parses back to exactly the original duration (hence within 1 ms). -/
theorem duration_codec_round_trip (d hrs m ms : ℕ) (hd : d ≤ 10) (hh : hrs ≤ 23)
    (hm : m ≤ 59) (hms : ms ≤ 59999) :
    validate (value_to_text (durationUs d hrs m ms)) = QVState.Acceptable ∧
      time_delta (value_to_text (durationUs d hrs m ms)) =
        some (durationUs d hrs m ms) := by
  have hdf : daysF (durationUs d hrs m ms) = (d : ℤ) := by
    unfold daysF durationUs; omega
  have hhf : hoursF (durationUs d hrs m ms) = (hrs : ℤ) := by
    unfold hoursF secsF durationUs; omega
  have hmf : minutesF (durationUs d hrs m ms) = (m : ℤ) := by
    unfold minutesF secsF durationUs; omega
  have hmicro : microF (durationUs d hrs m ms) = ((ms : ℤ) % 1000) * 1000 := by
    unfold microF durationUs; omega
  have hsm : secMicroF (durationUs d hrs m ms) = (ms : ℤ) * 1000 := by
    unfold secMicroF secondsIntF microF secsF durationUs; omega
  obtain ⟨sn, sk, hsd, hsb, hcontrib, hchars, hsne, hscol, hslast⟩ :=
    secondsStr_spec ms hms (durationUs d hrs m ms) hmicro hsm
  have hval : validate (value_to_text (durationUs d hrs m ms)) =
      validateStripped (stripInvalid (value_to_textCL (durationUs d hrs m ms))) := rfl
  have htd : time_delta (value_to_text (durationUs d hrs m ms)) =
      time_deltaCL (value_to_textCL (durationUs d hrs m ms)) := rfl
  rw [hval, htd]
  by_cases hd0 : 0 < d
  · have hform : value_to_textCL (durationUs d hrs m ms) =
        ntd d ++ ':' :: pad2 hrs ++ ':' :: pad2 m ++
          ':' :: secondsStrCL (durationUs d hrs m ms) := by
      unfold value_to_textCL
      rw [hdf, if_pos (by exact_mod_cast hd0), hhf, hmf]
      simp
    rw [hform]
    have hstrip : stripInvalid (ntd d ++ ':' :: pad2 hrs ++ ':' :: pad2 m ++
        ':' :: secondsStrCL (durationUs d hrs m ms)) =
        ntd d ++ ':' :: pad2 hrs ++ ':' :: pad2 m ++
          ':' :: secondsStrCL (durationUs d hrs m ms) := by
      rw [stripInvalid_append, stripInvalid_append, stripInvalid_append,
        stripInvalid_colon_cons, stripInvalid_colon_cons, stripInvalid_colon_cons,
        stripInvalid_dig _ (mem_ntd_isDig d), stripInvalid_dig _ (mem_pad2_isDig hrs),
        stripInvalid_dig _ (mem_pad2_isDig m), stripInvalid_digdot _ hchars]
    rw [hstrip]
    have h4 := parts4_ok (ntd d) (pad2 hrs) (pad2 m)
        (secondsStrCL (durationUs d hrs m ms)) d hrs m sn sk
        (toULongLong_ntd d (by omega)) (toUShort_pad2 hrs (by omega)) (by omega)
        (toUShort_pad2 m (by omega)) (by omega) hsd hsb
        (mem_ntd_isDig d) (ntd_ne_nil d) (mem_pad2_isDig hrs) (pad2_ne_nil hrs)
        (mem_pad2_isDig m) (pad2_ne_nil m) hscol hsne hslast
    refine ⟨h4.1, ?_⟩
    rw [h4.2, Option.some_inj]
    unfold timedeltaOf durationUs
    rw [hcontrib]
    push_cast
    ring
  · obtain rfl : d = 0 := by omega
    by_cases hh0 : 0 < hrs
    · have hform : value_to_textCL (durationUs 0 hrs m ms) =
          pad2 hrs ++ ':' :: pad2 m ++
            ':' :: secondsStrCL (durationUs 0 hrs m ms) := by
        unfold value_to_textCL
        rw [hdf, hhf, hmf]
        rw [if_neg (by norm_num), if_pos (by exact_mod_cast hh0)]
        simp
      rw [hform]
      have hstrip : stripInvalid (pad2 hrs ++ ':' :: pad2 m ++
          ':' :: secondsStrCL (durationUs 0 hrs m ms)) =
          pad2 hrs ++ ':' :: pad2 m ++
            ':' :: secondsStrCL (durationUs 0 hrs m ms) := by
        rw [stripInvalid_append, stripInvalid_append,
          stripInvalid_colon_cons, stripInvalid_colon_cons,
          stripInvalid_dig _ (mem_pad2_isDig hrs), stripInvalid_dig _ (mem_pad2_isDig m),
          stripInvalid_digdot _ hchars]
      rw [hstrip]
      have h3 := parts3_ok (pad2 hrs) (pad2 m)
          (secondsStrCL (durationUs 0 hrs m ms)) hrs m sn sk
          (toUShort_pad2 hrs (by omega)) (by omega)
          (toUShort_pad2 m (by omega)) (by omega) hsd hsb
          (mem_pad2_isDig hrs) (pad2_ne_nil hrs)
          (mem_pad2_isDig m) (pad2_ne_nil m) hscol hsne hslast
      refine ⟨h3.1, ?_⟩
      rw [h3.2, Option.some_inj]
      unfold timedeltaOf durationUs
      rw [hcontrib]
      push_cast
      ring
    · obtain rfl : hrs = 0 := by omega
      have hform : value_to_textCL (durationUs 0 0 m ms) =
          pad2 m ++ ':' :: secondsStrCL (durationUs 0 0 m ms) := by
        unfold value_to_textCL
        rw [hdf, hhf, hmf]
        rw [if_neg (by norm_num), if_neg (by norm_num)]
        simp
      rw [hform]
      have hstrip : stripInvalid (pad2 m ++
          ':' :: secondsStrCL (durationUs 0 0 m ms)) =
          pad2 m ++ ':' :: secondsStrCL (durationUs 0 0 m ms) := by
        rw [stripInvalid_append, stripInvalid_colon_cons,
          stripInvalid_dig _ (mem_pad2_isDig m), stripInvalid_digdot _ hchars]
      rw [hstrip]
      have h2 := parts2_ok (pad2 m) (secondsStrCL (durationUs 0 0 m ms)) m sn sk
          (toUShort_pad2 m (by omega)) (by omega) hsd hsb
          (mem_pad2_isDig m) (pad2_ne_nil m) hscol hsne hslast
      refine ⟨h2.1, ?_⟩
      rw [h2.2, Option.some_inj]
      unfold timedeltaOf durationUs
      rw [hcontrib]
      push_cast
      ring

/-- Witness for C3's theorem: one day, two hours, three minutes, 4.5 seconds
round-trips through format and parse. -/
theorem duration_codec_round_trip_witness :
    ((1 : ℕ) ≤ 10 ∧ (2 : ℕ) ≤ 23 ∧ (3 : ℕ) ≤ 59 ∧ (4500 : ℕ) ≤ 59999) ∧
      (validate (value_to_text (durationUs 1 2 3 4500)) = QVState.Acceptable ∧
        time_delta (value_to_text (durationUs 1 2 3 4500)) =
          some (durationUs 1 2 3 4500)) :=
  ⟨by decide,
   duration_codec_round_trip 1 2 3 4500 (by decide) (by decide) (by decide) (by decide)⟩

end VeriCold
